import Mathlib

/-!
Verification of the PCG-based random generator of quik_math
(src/include/random.hpp), shallowly embedded in Lean 4.

Machine integers are modelled as `Nat` with explicit reduction modulo
2 ^ 64 (for `qm::u_least64` / `u64`) and 2 ^ 32 (for `qm::u_least32` /
`u32` / `unsigned int`) at every point where the C++ arithmetic wraps.
Signed `int` values are modelled as `Int` with twos-complement
conversions made explicit.  Thrown `std::invalid_argument` exceptions
are modelled as `none` results that leave the generator state
untouched.  Entropy (`std::random_device`), timestamps and the
implementation-defined standard-library shuffle engine are modelled as
explicit parameters, so that every definition stays executable and
deterministic.
-/

namespace QuikMaff

/-- Internal state of the PCG generator, mirroring `Random::PCGState`:
a 64-bit evolving LCG state and a 64-bit stream selector. -/
structure PCGState where
  State : Nat
  Sequence : Nat
deriving DecidableEq

/-- Core step `Random::rand()` (PCG32 XSH-RR, random.hpp lines 28-40):
advance `State` by the 64-bit multiply-add (wrapping mod 2 ^ 64) and
return the 32-bit output permutation of the old state.  The C++
`(-rot) & 31` on `unsigned int` is the unsigned negation modulo 2 ^ 32
followed by the 5-bit mask, written out explicitly here. -/
def rand (s : PCGState) : PCGState × Nat :=
  let old := s.State
  let newState := (old * 6364136223846793005 + s.Sequence) % 2 ^ 64
  let xorShifted := (((old >>> 18) ^^^ old) >>> 27) % 2 ^ 32
  let rot := (old >>> 59) % 2 ^ 32
  let negRotAnd31 := ((2 ^ 32 - rot) % 2 ^ 32) &&& 31
  let out := ((xorShifted >>> rot) ||| ((xorShifted <<< negRotAnd31) % 2 ^ 32)) % 2 ^ 32
  (⟨newState, s.Sequence⟩, out)

/-- Seeding procedure `Random::seed(seedValue)` (random.hpp lines
272-294).  `seedValue` is a C++ `unsigned int`; `0` selects the
entropy path.  The three `std::random_device` draws of the entropy
path are passed in as the explicit 32-bit parameters `e1 e2 e3`
(`rd() << 1 | 1` wraps in `unsigned int`, hence the mod 2 ^ 32 on the
shifted value). -/
def seed (e1 e2 e3 : Nat) (seedValue : Nat) : PCGState :=
  if seedValue % 2 ^ 32 = 0 then
    let st0 : PCGState := ⟨e1 % 2 ^ 32, (((e2 % 2 ^ 32) <<< 1) % 2 ^ 32) ||| 1⟩
    let st1 := (rand st0).1
    let st2 : PCGState := ⟨(st1.State + e3 % 2 ^ 32) % 2 ^ 64, st1.Sequence⟩
    (rand st2).1
  else
    let st0 : PCGState := ⟨seedValue % 2 ^ 32, 1⟩
    let st1 := (rand st0).1
    let st2 : PCGState := ⟨(st1.State + 0x853c49e6748fea9b) % 2 ^ 64, st1.Sequence⟩
    (rand st2).1

/-- Explicit-seed procedure transcribed from the wording of the specification
(spec section 4.1, seeding contract): set `state = seed` widened to 64
bits, `stream = 1`, advance once discarding the output, add the fixed
odd mixing constant `0x853c49e6748fea9b` to `state`, then perform one
more discard-advance before returning.  Used to compare the
explicit-seed path of the code against the specified procedure. -/
def seedSpecExplicit (seedValue : Nat) : PCGState :=
  let st0 : PCGState := ⟨seedValue % 2 ^ 32, 1⟩
  let st1 := (rand st0).1
  let st2 : PCGState := ⟨(st1.State + 0x853c49e6748fea9b) % 2 ^ 64, st1.Sequence⟩
  (rand st2).1

/-- Successive outputs of `rand` starting from state `s`: the list of
the first `n` 32-bit draws. -/
def randList (s : PCGState) : Nat → List Nat
  | 0 => []
  | n + 1 =>
    let p := rand s
    p.2 :: randList p.1 n

/-- Conversion of a C++ `int` value to the `unsigned int` it is
converted to by the usual arithmetic conversions (twos complement,
modulo 2 ^ 32). -/
def uint32OfInt (x : Int) : Nat := (x % 2 ^ 32).toNat

/-- Conversion of an `unsigned int` bit pattern back to the C++ `int`
it converts to (modular conversion, C++20 twos complement). -/
def int32OfUInt32 (n : Nat) : Int :=
  if n % 2 ^ 32 < 2 ^ 31 then (n % 2 ^ 32 : Int) else (n % 2 ^ 32 : Int) - 2 ^ 32

/-- Ranged draw `Random::rand(min, max)` (random.hpp lines 53-58):
`min + (this->rand() % (max - min + 1))`.  The divisor `max - min + 1`
is computed in `int` (wrapping) and converted to `unsigned int` for
the `%`; when that unsigned value is zero the C++ `%` is a division by
zero (undefined behavior), modelled as `none`.  The sum `min + ...`
is computed in `unsigned int` and converted back to `int`. -/
def randRange (s : PCGState) (min max : Int) : Option (PCGState × Int) :=
  let p := rand s
  let range := uint32OfInt (max - min + 1)
  if range = 0 then none
  else some (p.1, int32OfUInt32 ((uint32OfInt min + p.2 % range) % 2 ^ 32))

/-- Character set used by `Random::randString` (random.hpp line 102):
despite the doc comment announcing alpha characters only, the literal
in the source contains the ten digits as well. -/
def randStringCharset : List Char :=
  "abcdefghijklmnopqrstuvwxyzABCDEFGHIJKLMNOPQRSTUVWXYZ0123456789".toList

/-- Character set used by `Random::randAlphaNumericString`
(random.hpp line 131). -/
def randAlphaNumericCharset : List Char :=
  "0123456789ABCDEFGHIJKLMNOPQRSTUVWXYZabcdefghijklmnopqrstuvwxyz".toList

/-- Shared loop body of the two token generators: append, `n` times,
the character `charset[rand() % charset.length()]`, threading the
generator state through the successive draws. -/
def buildToken (charset : List Char) : PCGState → Nat → PCGState × List Char
  | s, 0 => (s, [])
  | s, n + 1 =>
    let p := rand s
    let c := charset.getD (p.2 % charset.length) 'a'
    let rest := buildToken charset p.1 n
    (rest.1, c :: rest.2)

/-- Token generator `Random::randString(length)` (random.hpp lines
94-111): throws `std::invalid_argument` when `length <= 0` (modelled
as `none` with the state unchanged), otherwise builds the string from
its charset.  `length` is `std::size_t`, so `length <= 0` means
`length = 0`. -/
def randString (s : PCGState) (length : Nat) : PCGState × Option (List Char) :=
  if length ≤ 0 then (s, none)
  else
    let r := buildToken randStringCharset s length
    (r.1, some r.2)

/-- Token generator `Random::randAlphaNumericString(length)`
(random.hpp lines 124-140), same structure as `randString` with the
alphanumeric charset. -/
def randAlphaNumericString (s : PCGState) (length : Nat) : PCGState × Option (List Char) :=
  if length ≤ 0 then (s, none)
  else
    let r := buildToken randAlphaNumericCharset s length
    (r.1, some r.2)

/-- Collection sampler `Random::getRandomElement(elements)`
(random.hpp lines 228-237): throws `std::invalid_argument` on an
empty vector (modelled as `none` with the state unchanged), otherwise
returns `elements[rand() % elements.size()]`. -/
def getRandomElement {α : Type} (s : PCGState) (elements : List α) :
    PCGState × Option α :=
  if elements.isEmpty then (s, none)
  else
    let p := rand s
    (p.1, elements[p.2 % elements.length]?)

/-- Exchange of the elements at positions `i` and `j`, used to model
the element swaps of the standard library shuffle; out-of-range positions
leave the list unchanged (the shuffle only ever swaps in range). -/
def swapAt (l : List α) (i j : Nat) : List α :=
  if h : i < l.length ∧ j < l.length then
    (l.set i (l.get ⟨j, h.2⟩)).set j (l.get ⟨i, h.1⟩)
  else l

/-- Fisher-Yates downward pass: for `i` from the given start down to
1, swap position `i` with position `choose i % (i + 1)`. -/
def shuffleAux (choose : Nat → Nat) : List α → Nat → List α
  | l, 0 => l
  | l, i + 1 => shuffleAux choose (swapAt l (i + 1) (choose (i + 1) % (i + 2))) i

/-- Modelled from the spec: `std::shuffle` over the vector, an
in-place uniform random permutation by Fisher-Yates or equivalent
(the exact draw sequence of the standard library implementation is
implementation-defined; it is abstracted as the index-choice function
`choose`). -/
def stdShuffle (choose : Nat → Nat) (l : List α) : List α :=
  shuffleAux choose l (l.length - 1)

/-- Shuffle entry point `Random::shuffleVector(container)`
(random.hpp lines 253-259): draw one `rand()` output to seed
`std::default_random_engine` and run `std::shuffle` with it.  The
engine is abstracted as a function from its 32-bit seed to an
index-choice function. -/
def shuffleVector {α : Type} (engine : Nat → Nat → Nat) (s : PCGState) (l : List α) :
    PCGState × List α :=
  let p := rand s
  (p.1, stdShuffle (engine p.2) l)

/-- Gaussian draw `Random::randNormal(mean, stddev)` (random.hpp
lines 160-166).  Modelled from the spec: the draw comes from a
`std::normal_distribution` over a freshly entropy-seeded `std::mt19937`
— floating-point sampling abstracted as the uninterpreted `sampler`
applied to the per-call entropy draw and the two parameters.  The
function never reads or writes the PCG `(State, Sequence)` pair. -/
def randNormal {F α : Type} (sampler : Nat → F → F → α) (s : PCGState)
    (entropy : Nat) (mean stddev : F) : PCGState × α :=
  (s, sampler entropy mean stddev)

/-- Process-wide call counter of `Random::generateID` (random.hpp
line 182): a function-local `static u64`, zero-initialized, shared by
every `Random` instance in the process. -/
structure GlobalIDCounter where
  counter : Nat
deriving DecidableEq

/-- The zero-initialized state of the static counter at process
start. -/
def initialIDCounter : GlobalIDCounter := ⟨0⟩

/-- ID generator `Random::generateID()` (random.hpp lines 178-194):
take the current timestamp (passed in explicitly), draw one `rand()`
output, increment the static counter (`u64`, wrapping), and format
the three components in order into the returned string. -/
def generateID (g : GlobalIDCounter) (s : PCGState) (timestamp : Nat) :
    GlobalIDCounter × PCGState × String :=
  let p := rand s
  let c := (g.counter + 1) % 2 ^ 64
  (⟨c⟩, p.1, toString timestamp ++ toString p.2 ++ toString c)

/-- Counter components embedded in a sequence of `generateID` calls:
each call is given by the instance state and timestamp it uses (the
instances may differ; the counter is shared). -/
def generateIDSeq (g : GlobalIDCounter) : List (PCGState × Nat) → List Nat
  | [] => []
  | (s, t) :: rest =>
    let g1 := (generateID g s t).1
    g1.counter :: generateIDSeq g1 rest

end QuikMaff

namespace QuikMaff

/-- Bridge for the C++ rotate idiom: for a rotation amount below 32,
the unsigned-negation-and-mask `(-rot) & 31` equals `(32 - rot) % 32`. -/
theorem negRot_and_31 (rot : Nat) (h : rot < 32) :
    ((2 ^ 32 - rot) % 2 ^ 32) &&& 31 = (32 - rot) % 32 := by
  have h31 : (31 : Nat) = 2 ^ 5 - 1 := rfl
  rw [h31, Nat.and_pow_two_sub_one_eq_mod]
  norm_num
  omega

/-- Helper: the rotation amount extracted from a well-formed 64-bit
state is below 32. -/
theorem rot_lt_32 (x : Nat) (h : x < 2 ^ 64) : x >>> 59 < 32 := by
  rw [Nat.shiftRight_eq_div_pow]
  have h32 : (32 : Nat) * 2 ^ 59 = 2 ^ 64 := by norm_num
  exact Nat.div_lt_of_lt_mul (h32 ▸ h)

/-- C1: one core step `rand()` updates the state to
`old * 6364136223846793005 + stream` modulo 2 ^ 64 (silent wraparound,
the step is total and reports no error), leaves the stream unchanged,
and returns the 32-bit rotation of `xorshifted = ((old >> 18) ^ old) >> 27`
(truncated to 32 bits) right by `rot = old >> 59` bits, computed as
`(xorshifted >> rot) | (xorshifted << ((-rot) & 31))`. -/
theorem rand_core_step (s : PCGState) (h : s.State < 2 ^ 64) :
    (rand s).1.State = (s.State * 6364136223846793005 + s.Sequence) % 2 ^ 64
  ∧ (rand s).1.Sequence = s.Sequence
  ∧ (rand s).2 =
      ((((s.State >>> 18) ^^^ s.State) >>> 27) % 2 ^ 32) >>> (s.State >>> 59) |||
        (((((s.State >>> 18) ^^^ s.State) >>> 27) % 2 ^ 32) <<<
            ((32 - s.State >>> 59) % 32)) % 2 ^ 32
  ∧ (rand s).2 < 2 ^ 32 := by
  have hrot : s.State >>> 59 < 32 := rot_lt_32 s.State h
  have hrotBig : s.State >>> 59 < 2 ^ 32 := lt_trans hrot (by norm_num)
  refine ⟨rfl, rfl, ?_, ?_⟩
  · show ((((((s.State >>> 18) ^^^ s.State) >>> 27) % 2 ^ 32) >>> ((s.State >>> 59) % 2 ^ 32) |||
        (((((s.State >>> 18) ^^^ s.State) >>> 27) % 2 ^ 32) <<<
            (((2 ^ 32 - (s.State >>> 59) % 2 ^ 32) % 2 ^ 32) &&& 31)) % 2 ^ 32) % 2 ^ 32) = _
    rw [Nat.mod_eq_of_lt hrotBig, negRot_and_31 _ hrot]
    apply Nat.mod_eq_of_lt
    apply Nat.or_lt_two_pow
    · calc ((((s.State >>> 18) ^^^ s.State) >>> 27) % 2 ^ 32) >>> (s.State >>> 59)
          ≤ (((s.State >>> 18) ^^^ s.State) >>> 27) % 2 ^ 32 := by
            rw [Nat.shiftRight_eq_div_pow]; exact Nat.div_le_self _ _
      _ < 2 ^ 32 := Nat.mod_lt _ (by norm_num)
    · exact Nat.mod_lt _ (by norm_num)
  · show (_ % 2 ^ 32) < 2 ^ 32
    exact Nat.mod_lt _ (by norm_num)

/-- Witness for C1 at a concrete well-formed state. -/
theorem rand_core_step_witness :
    (rand ⟨12345, 67⟩).1.State = (12345 * 6364136223846793005 + 67) % 2 ^ 64
  ∧ (rand ⟨12345, 67⟩).1.Sequence = 67
  ∧ (rand ⟨12345, 67⟩).2 =
      ((((12345 >>> 18) ^^^ 12345) >>> 27) % 2 ^ 32) >>> (12345 >>> 59) |||
        (((((12345 >>> 18) ^^^ 12345) >>> 27) % 2 ^ 32) <<<
            ((32 - 12345 >>> 59) % 32)) % 2 ^ 32
  ∧ (rand ⟨12345, 67⟩).2 < 2 ^ 32 :=
  rand_core_step ⟨12345, 67⟩ (by norm_num)

/-- C2: for every explicit non-zero seed value the seeding procedure
equals the specified explicit-seed procedure and is independent of the
entropy source, and the first five outputs after `seed(12345)` are the
reference values computed from exactly that procedure. -/
theorem seed_explicit_deterministic :
    (∀ e1 e2 e3 f1 f2 f3 sv : Nat, sv % 2 ^ 32 ≠ 0 →
        seed e1 e2 e3 sv = seedSpecExplicit sv ∧ seed e1 e2 e3 sv = seed f1 f2 f3 sv)
  ∧ randList (seed 0 0 0 12345) 5 =
      [1105204632, 81210161, 2224258005, 3473087993, 1347736393] := by
  constructor
  · intro e1 e2 e3 f1 f2 f3 sv h
    constructor <;> simp only [seed, seedSpecExplicit, if_neg h]
  · rfl

/-- Witness for C2 at concrete entropy values and seed 12345. -/
theorem seed_explicit_deterministic_witness :
    seed 7 8 9 12345 = seedSpecExplicit 12345 ∧ seed 7 8 9 12345 = seed 1 2 3 12345 :=
  seed_explicit_deterministic.1 7 8 9 1 2 3 12345 (by decide)

/-- Helper: the core step never modifies the stream selector. -/
theorem rand_sequence (s : PCGState) : (rand s).1.Sequence = s.Sequence := rfl

/-- Helper: the token-building loop never modifies the stream
selector. -/
theorem buildToken_sequence (charset : List Char) (s : PCGState) (n : Nat) :
    (buildToken charset s n).1.Sequence = s.Sequence := by
  induction n generalizing s with
  | zero => rfl
  | succ n ih => simp only [buildToken]; rw [ih, rand_sequence]

/-- C3: after any completed seeding (entropy-based or explicit) the
stream selector is odd, and every other modelled operation of the
generator leaves the stream selector unchanged, so oddness of the
stream is an invariant of every reachable state of a seeded
generator. -/
theorem stream_odd_invariant :
    (∀ e1 e2 e3 sv : Nat, (seed e1 e2 e3 sv).Sequence % 2 = 1)
  ∧ (∀ s : PCGState, (rand s).1.Sequence = s.Sequence)
  ∧ (∀ (s : PCGState) (min max : Int),
      ((randRange s min max).getD ((rand s).1, 0)).1.Sequence = s.Sequence)
  ∧ (∀ (s : PCGState) (n : Nat), (randString s n).1.Sequence = s.Sequence)
  ∧ (∀ (s : PCGState) (n : Nat), (randAlphaNumericString s n).1.Sequence = s.Sequence)
  ∧ (∀ (α : Type) (s : PCGState) (l : List α),
      (getRandomElement s l).1.Sequence = s.Sequence)
  ∧ (∀ (α : Type) (engine : Nat → Nat → Nat) (s : PCGState) (l : List α),
      (shuffleVector engine s l).1.Sequence = s.Sequence)
  ∧ (∀ (g : GlobalIDCounter) (s : PCGState) (t : Nat),
      (generateID g s t).2.1.Sequence = s.Sequence)
  ∧ (∀ (F α : Type) (sampler : Nat → F → F → α) (s : PCGState) (e : Nat) (m sd : F),
      (randNormal sampler s e m sd).1.Sequence = s.Sequence) := by
  refine ⟨?_, fun s => rfl, ?_, ?_, ?_, ?_, ?_, fun g s t => rfl, fun F α f s e m sd => rfl⟩
  · intro e1 e2 e3 sv
    by_cases h : sv % 2 ^ 32 = 0
    · simp only [seed, if_pos h, rand_sequence]
      simp
    · simp only [seed, if_neg h, rand_sequence]
  · intro s min max
    unfold randRange
    by_cases h : uint32OfInt (max - min + 1) = 0 <;> simp [h, rand_sequence]
  · intro s n
    unfold randString
    by_cases h : n ≤ 0 <;> simp [h, buildToken_sequence]
  · intro s n
    unfold randAlphaNumericString
    by_cases h : n ≤ 0 <;> simp [h, buildToken_sequence]
  · intro α s l
    unfold getRandomElement
    by_cases h : l.isEmpty <;> simp [h, rand_sequence]
  · intro α engine s l
    unfold shuffleVector
    simp [rand_sequence]

/-- C5 (failing-input evaluation): at the generator state reached
after nine draws following `seed(12345)`, a single-character
`randString` request returns the digit character three, which is not
an alphabetic character — the charset in the code contradicts its own
documentation and the letters-only claim. -/
theorem randString_emits_digit :
    (randString ⟨7915662345218836591, 1⟩ 1).2 = some ['3']
  ∧ Char.isAlpha '3' = false := by
  exact ⟨rfl, rfl⟩

/-- C6: both token generators fail if and only if the requested
length is zero; the error path leaves the generator state unchanged,
and every positive length returns normally. -/
theorem token_error_iff_zero_length (s : PCGState) (n : Nat) :
    ((randString s n).2 = none ↔ n = 0)
  ∧ ((randAlphaNumericString s n).2 = none ↔ n = 0)
  ∧ (randString s 0).1 = s
  ∧ (randAlphaNumericString s 0).1 = s
  ∧ ((randString s (n + 1)).2).isSome = true
  ∧ ((randAlphaNumericString s (n + 1)).2).isSome = true := by
  cases n <;> simp [randString, randAlphaNumericString]

/-- C7: sampling from an empty collection fails with the state
unchanged, sampling from a non-empty collection returns the element
at index `rand() % size`, and sampling from a singleton always
returns its element. -/
theorem getRandomElement_spec {α : Type} (s : PCGState) (l : List α) (x : α) :
    getRandomElement s ([] : List α) = (s, none)
  ∧ ((getRandomElement s l).2 = none ↔ l = [])
  ∧ (getRandomElement s l).2 = l[(rand s).2 % l.length]?
  ∧ (getRandomElement s [x]).2 = some x := by
  refine ⟨rfl, ?_, ?_, ?_⟩
  · cases l with
    | nil => simp [getRandomElement]
    | cons a t =>
      simp only [getRandomElement, List.isEmpty_cons, if_neg Bool.false_ne_true]
      constructor
      · intro h
        exact absurd h (by
          simp [List.getElem?_eq_none_iff]
          exact Nat.mod_lt _ (Nat.succ_pos _))
      · intro h
        exact absurd h (by simp)
  · cases l with
    | nil => simp [getRandomElement]
    | cons a t => simp [getRandomElement]
  · simp [getRandomElement, Nat.mod_one]

/-- C4 counterexample: at the full `int` range (`min = -2 ^ 31`,
`max = 2 ^ 31 - 1`) the divisor `max - min + 1` wraps to zero in
32-bit arithmetic, so `rand(min, max)` performs a modulo by zero and
returns no value at all, let alone one inside the range. -/
theorem randRange_full_range_counterexample :
    ¬ ∃ (s2 : PCGState) (v : Int),
        randRange ⟨0, 1⟩ (-(2 ^ 31)) (2 ^ 31 - 1) = some (s2, v)
      ∧ -(2 ^ 31) ≤ v ∧ v ≤ 2 ^ 31 - 1 := by
  rintro ⟨s2, v, h, _, _⟩
  have hn : randRange ⟨0, 1⟩ (-(2 ^ 31)) (2 ^ 31 - 1) = none := rfl
  rw [hn] at h
  exact Option.noConfusion h

/-- C4 (amended): for every pair of 32-bit `int` values with
`min <= max`, except the single full-range pair
`(-2 ^ 31, 2 ^ 31 - 1)`, `rand(min, max)` returns
`min + (rand() % (max - min + 1))`, which lies in `[min, max]`; in
particular when `min = max` it always returns `min`. -/
theorem randRange_in_range (s : PCGState) (min max : Int)
    (h1 : -(2 ^ 31) ≤ min) (h2 : max < 2 ^ 31) (h3 : min ≤ max)
    (h4 : max - min < 2 ^ 32 - 1) :
    randRange s min max = some ((rand s).1, min + ((rand s).2 : Int) % (max - min + 1))
  ∧ min ≤ min + ((rand s).2 : Int) % (max - min + 1)
  ∧ min + ((rand s).2 : Int) % (max - min + 1) ≤ max
  ∧ (min = max → randRange s min max = some ((rand s).1, min)) := by
  have hR : (0 : Int) < max - min + 1 := by omega
  have hq0 : (0 : Int) ≤ ((rand s).2 : Int) % (max - min + 1) :=
    Int.emod_nonneg _ (by omega)
  have hqlt : ((rand s).2 : Int) % (max - min + 1) < max - min + 1 :=
    Int.emod_lt_of_pos _ hR
  have hrange : uint32OfInt (max - min + 1) = (max - min + 1).toNat := by
    unfold uint32OfInt
    rw [Int.emod_eq_of_lt (by omega) (by omega)]
  have hq : ((rand s).2 % (max - min + 1).toNat : Nat) =
      (((rand s).2 : Int) % (max - min + 1)).toNat := by
    have hcast : (((rand s).2 % (max - min + 1).toNat : Nat) : Int) =
        ((rand s).2 : Int) % (max - min + 1) := by
      rw [Int.natCast_mod, Int.toNat_of_nonneg (le_of_lt hR)]
    omega
  have hval : int32OfUInt32 ((uint32OfInt min + (rand s).2 % (max - min + 1).toNat) % 2 ^ 32) =
      min + ((rand s).2 : Int) % (max - min + 1) := by
    have hum : ((uint32OfInt min : Nat) : Int) = min % 2 ^ 32 := by
      unfold uint32OfInt
      exact Int.toNat_of_nonneg (Int.emod_nonneg _ (by norm_num))
    unfold int32OfUInt32
    split <;> omega
  have hmain : randRange s min max =
      some ((rand s).1, min + ((rand s).2 : Int) % (max - min + 1)) := by
    unfold randRange
    rw [hrange, if_neg (by omega), hval]
  refine ⟨hmain, by omega, by omega, fun hEq => ?_⟩
  rw [hmain]
  have : ((rand s).2 : Int) % (max - min + 1) = 0 := by
    rw [← hEq] at hqlt hq0 ⊢
    omega
  rw [this, add_zero]

/-- Witness for C4 at the concrete degenerate range `[3, 3]`. -/
theorem randRange_in_range_witness :
    randRange ⟨1, 1⟩ 3 3 = some ((rand ⟨1, 1⟩).1, 3) :=
  (randRange_in_range ⟨1, 1⟩ 3 3 (by decide) (by decide) (by decide) (by decide)).2.2.2 rfl

/-- Helper: pulling the element at position `m` to the front while
writing `a` into position `m` is a permutation of putting `a` at the
front. -/
theorem cons_get_set_perm : ∀ (t : List α) (m : Nat) (h : m < t.length) (a : α),
    List.Perm (t.get ⟨m, h⟩ :: t.set m a) (a :: t)
  | [], _, h, _ => absurd h (Nat.not_lt_zero _)
  | b :: t, 0, _, a => List.Perm.swap a b t
  | b :: t, m + 1, h, a =>
    List.Perm.trans (List.Perm.swap b (t.get ⟨m, Nat.lt_of_succ_lt_succ h⟩) (t.set m a))
      (List.Perm.trans
        (List.Perm.cons b (cons_get_set_perm t m (Nat.lt_of_succ_lt_succ h) a))
        (List.Perm.swap a b t))

/-- Helper: exchanging the elements at two in-range positions is a
permutation. -/
theorem set_set_get_perm : ∀ (l : List α) (i j : Nat) (hi : i < l.length) (hj : j < l.length),
    List.Perm ((l.set i (l.get ⟨j, hj⟩)).set j (l.get ⟨i, hi⟩)) l
  | [], _, _, hi, _ => absurd hi (Nat.not_lt_zero _)
  | a :: t, 0, 0, _, _ => List.Perm.refl (a :: t)
  | a :: t, 0, k + 1, _, hj =>
    cons_get_set_perm t k (Nat.lt_of_succ_lt_succ hj) a
  | a :: t, m + 1, 0, hi, _ =>
    cons_get_set_perm t m (Nat.lt_of_succ_lt_succ hi) a
  | a :: t, m + 1, k + 1, hi, hj =>
    List.Perm.cons a
      (set_set_get_perm t m k (Nat.lt_of_succ_lt_succ hi) (Nat.lt_of_succ_lt_succ hj))

/-- Helper: every swap step of the modelled shuffle is a
permutation. -/
theorem swapAt_perm (l : List α) (i j : Nat) : List.Perm (swapAt l i j) l := by
  unfold swapAt
  split
  next h => exact set_set_get_perm l i j h.1 h.2
  next => exact List.Perm.refl l

/-- Helper: the whole downward pass of the modelled shuffle is a
permutation, for every index-choice function. -/
theorem shuffleAux_perm (choose : Nat → Nat) : ∀ (i : Nat) (l : List α),
    List.Perm (shuffleAux choose l i) l
  | 0, l => List.Perm.refl l
  | i + 1, l =>
    List.Perm.trans (shuffleAux_perm choose i (swapAt l (i + 1) (choose (i + 1) % (i + 2))))
      (swapAt_perm l (i + 1) (choose (i + 1) % (i + 2)))

/-- C8: for every input vector and every behavior of the
standard-library engine, `shuffleVector` terminates with a
permutation of its input (same length, same multiset), and the only
randomness it consumes from the core generator is the single draw
used to seed the engine. -/
theorem shuffleVector_perm {α : Type} (engine : Nat → Nat → Nat) (s : PCGState) (l : List α) :
    List.Perm (shuffleVector engine s l).2 l
  ∧ ((shuffleVector engine s l).2).length = l.length
  ∧ (shuffleVector engine s l).1 = (rand s).1 := by
  have hp : List.Perm (shuffleVector engine s l).2 l :=
    shuffleAux_perm (engine (rand s).2) (l.length - 1) l
  exact ⟨hp, hp.length_eq, rfl⟩

/-- C9: a Gaussian draw leaves the `(state, stream)` pair of the generator
unchanged, and its return value is the same whatever that pair is —
it is a function of the per-call entropy and the parameters only, so
it is not derived from the core PCG stream and not reproducible under
explicit seeding. -/
theorem randNormal_frame {F α : Type} (sampler : Nat → F → F → α)
    (s t : PCGState) (e : Nat) (mean stddev : F) :
    (randNormal sampler s e mean stddev).1 = s
  ∧ (randNormal sampler s e mean stddev).2 = (randNormal sampler t e mean stddev).2 :=
  ⟨rfl, rfl⟩

/-- Helper: without 64-bit overflow, running a sequence of
`generateID` calls from counter value `c` embeds the consecutive
counter values `c + 1, c + 2, ...`, whichever instances and
timestamps the calls use. -/
theorem generateIDSeq_range : ∀ (calls : List (PCGState × Nat)) (c : Nat),
    c + calls.length < 2 ^ 64 →
    generateIDSeq ⟨c⟩ calls = List.range' (c + 1) calls.length := by
  intro calls
  induction calls with
  | nil => intro c h; rfl
  | cons p rest ih =>
    intro c h
    obtain ⟨s, t⟩ := p
    simp only [List.length_cons] at h
    have hc : (c + 1) % 2 ^ 64 = c + 1 := Nat.mod_eq_of_lt (by omega)
    simp only [generateIDSeq, generateID, List.length_cons, List.range'_succ]
    rw [hc, ih (c + 1) (by omega)]

/-- C10: the `generateID` counter is process-wide state shared by all
instances: starting from its zero initialization, each call (on any
instance, with any timestamp) increments it by exactly one and embeds
the incremented value as the final component of the returned string,
and absent 64-bit overflow the embedded counter components of
successive calls are strictly increasing. -/
theorem generateID_counter_monotonic :
    (∀ (g : GlobalIDCounter) (s : PCGState) (t : Nat),
        (generateID g s t).1.counter = (g.counter + 1) % 2 ^ 64
      ∧ (generateID g s t).2.2 =
          toString t ++ toString (rand s).2 ++ toString ((g.counter + 1) % 2 ^ 64))
  ∧ initialIDCounter.counter = 0
  ∧ (∀ calls : List (PCGState × Nat), calls.length < 2 ^ 64 →
      generateIDSeq initialIDCounter calls = List.range' 1 calls.length
      ∧ List.Pairwise (fun a b => a < b) (generateIDSeq initialIDCounter calls)) := by
  refine ⟨fun g s t => ⟨rfl, rfl⟩, rfl, fun calls h => ?_⟩
  have he : generateIDSeq initialIDCounter calls = List.range' 1 calls.length :=
    generateIDSeq_range calls 0 (by omega)
  constructor
  · exact he
  · rw [he]
    exact List.pairwise_lt_range' 1 calls.length

/-- Witness for C10: two calls on two different instances embed the
strictly increasing counter components 1 and 2. -/
theorem generateID_counter_monotonic_witness :
    generateIDSeq initialIDCounter [(⟨1, 1⟩, 5), (⟨2, 3⟩, 7)] = List.range' 1 2
  ∧ List.Pairwise (fun a b => a < b)
      (generateIDSeq initialIDCounter [(⟨1, 1⟩, 5), (⟨2, 3⟩, 7)]) :=
  generateID_counter_monotonic.2.2 [(⟨1, 1⟩, 5), (⟨2, 3⟩, 7)] (by decide)

end QuikMaff
